import Mathlib

/-
Verification of the ts-micro-result Result library.

Shallow embedding notes:
- JS runtime values are modelled by the inductive type JVal, including the
  distinction between null and undefined (JVal.null vs JVal.undefined), since the
  library's truthiness checks and strict/loose comparisons depend on it.
- JS objects are modelled as ordered association lists; property assignment
  overwrites in place or appends (setKey), property read returns undefined for a
  missing key (getKey), and the JS in-operator is hasKey.
- JSON.parse of a string is modelled by its outcome: Except String JVal, where
  the error payload is the thrown message. JSON.stringify followed by
  JSON.parse is the identity on undefined-free values, so the serialization
  theorems consume the encoder's output value directly, guarded where relevant
  by the jnoUndef predicate.
- TS types are erased at runtime; the typed Result as constructed by the
  library factories is ResultT (with Option fields for T | undefined), while
  the Result built by fromJson from untyped parsed JSON is ResultV with plain
  JVal fields. The payload slot conflates JS null and undefined as none.
-/

inductive JVal where
  | undefined
  | null
  | bool (b : Bool)
  | num (n : Int)
  | str (s : String)
  | arr (xs : List JVal)
  | obj (fields : List (String × JVal))

/-- JS property read on an object's field list: first matching key, else undefined. -/
def getKey : List (String × JVal) → String → JVal
  | [], _ => .undefined
  | (k, v) :: rest, key => if k = key then v else getKey rest key

/-- JS in-operator on an object's field list. -/
def hasKey : List (String × JVal) → String → Bool
  | [], _ => false
  | (k, _) :: rest, key => k == key || hasKey rest key

/-- JS property assignment: overwrite the existing key in place, else append. -/
def setKey : List (String × JVal) → String → JVal → List (String × JVal)
  | [], key, v => [(key, v)]
  | (k, w) :: rest, key, v =>
    if k = key then (k, v) :: rest else (k, w) :: setKey rest key v

/-- JS truthiness of a value. -/
def truthy : JVal → Bool
  | .undefined => false
  | .null => false
  | .bool b => b
  | .num n => n != 0
  | .str s => s != ""
  | .arr _ => true
  | .obj _ => true

def isUndef : JVal → Bool
  | .undefined => true
  | _ => false

def isNull : JVal → Bool
  | .null => true
  | _ => false

/-- JS logical-or: first operand if truthy, else second. -/
def jsOr (a b : JVal) : JVal := if truthy a then a else b

/-- JS nullish coalescing: second operand if the first is null or undefined. -/
def jsNullish (a b : JVal) : JVal := if isUndef a || isNull a then b else a

/-- JS property read on an arbitrary value; non-objects have none of the
library's property names (the null/undefined throwing cases are handled
separately at each call site that can reach them). -/
def jprop (v : JVal) (k : String) : JVal :=
  match v with
  | .obj fs => getKey fs k
  | _ => .undefined

/-- Conflate the two JS no-value sentinels into Option, as the library does
via its loose data != null checks and the T | null payload convention. -/
def normJS : JVal → Option JVal
  | .null => none
  | .undefined => none
  | v => some v

mutual
/-- True when the value contains no undefined anywhere, so that
JSON.parse (JSON.stringify v) = v holds for the real strings. -/
def jnoUndef : JVal → Bool
  | .undefined => false
  | .null => true
  | .bool _ => true
  | .num _ => true
  | .str _ => true
  | .arr xs => jnoUndefList xs
  | .obj fs => jnoUndefFields fs

def jnoUndefList : List JVal → Bool
  | [] => true
  | x :: xs => jnoUndef x && jnoUndefList xs

def jnoUndefFields : List (String × JVal) → Bool
  | [] => true
  | (_, v) :: fs => jnoUndef v && jnoUndefFields fs
end

theorem getKey_sizeOf_lt (fs : List (String × JVal)) (k : String) :
    sizeOf (getKey fs k) < 1 + sizeOf fs := by
  induction fs with
  | nil => simp [getKey]
  | cons kv rest ih =>
    obtain ⟨k', v⟩ := kv
    simp only [getKey]
    split
    · simp
      omega
    · simp
      omega

theorem getKey_append (a b : List (String × JVal)) (k : String) :
    getKey (a ++ b) k = if hasKey a k then getKey a k else getKey b k := by
  induction a with
  | nil => simp [getKey, hasKey]
  | cons kv rest ih =>
    obtain ⟨k', v⟩ := kv
    by_cases h : k' = k
    · simp [getKey, hasKey, h]
    · simp [getKey, hasKey, h, ih]

theorem hasKey_append (a b : List (String × JVal)) (k : String) :
    hasKey (a ++ b) k = (hasKey a k || hasKey b k) := by
  induction a with
  | nil => simp [hasKey]
  | cons kv rest ih =>
    obtain ⟨k', v⟩ := kv
    simp [hasKey, ih, Bool.or_assoc]

theorem getKey_setKey (fs : List (String × JVal)) (k k' : String) (v : JVal) :
    getKey (setKey fs k v) k' = if k' = k then v else getKey fs k' := by
  induction fs with
  | nil =>
    by_cases h : k = k'
    · subst h
      simp [setKey, getKey]
    · simp [setKey, getKey, h, Ne.symm h]
  | cons kv rest ih =>
    obtain ⟨k0, w⟩ := kv
    by_cases h0 : k0 = k
    · subst h0
      by_cases h1 : k0 = k'
      · subst h1
        simp [setKey, getKey]
      · simp [setKey, getKey, h1, Ne.symm h1]
    · by_cases h1 : k0 = k'
      · subst h1
        simp [setKey, getKey, h0, Ne.symm h0]
      · simp [setKey, getKey, h0, h1, ih]

/-- The four error severity levels of core/types.ts. -/
inductive ErrorLevel where
  | info
  | warning
  | error
  | critical
deriving DecidableEq

/-- The runtime string of an ErrorLevel (all four are non-empty, hence truthy). -/
def levelToJVal : ErrorLevel → JVal
  | .info => .str "info"
  | .warning => .str "warning"
  | .error => .str "error"
  | .critical => .str "critical"

/-- ErrorDetail of core/types.ts: code and message are required, the rest are
optional; cause is a singly-linked chain of ErrorDetail. Fields are in
interface declaration order: code, message, status, path, level, meta, cause. -/
inductive ErrorDetail where
  | mk (code : String) (message : String) (status : Option Int)
       (path : Option String) (level : Option ErrorLevel)
       (meta : Option (List (String × JVal))) (cause : Option ErrorDetail)

def ErrorDetail.code : ErrorDetail → String
  | .mk c _ _ _ _ _ _ => c

def ErrorDetail.message : ErrorDetail → String
  | .mk _ m _ _ _ _ _ => m

def ErrorDetail.status : ErrorDetail → Option Int
  | .mk _ _ s _ _ _ _ => s

def ErrorDetail.path : ErrorDetail → Option String
  | .mk _ _ _ p _ _ _ => p

def ErrorDetail.level : ErrorDetail → Option ErrorLevel
  | .mk _ _ _ _ l _ _ => l

def ErrorDetail.meta : ErrorDetail → Option (List (String × JVal))
  | .mk _ _ _ _ _ m _ => m

def ErrorDetail.cause : ErrorDetail → Option ErrorDetail
  | .mk _ _ _ _ _ _ c => c

/-- The JS object a well-typed ErrorDetail is at runtime: present fields in
declaration order, absent optional fields omitted (no key). This is also what
JSON.stringify serializes for an ErrorDetail. -/
def errorToJVal : ErrorDetail → JVal
  | .mk code message status path level meta cause =>
    .obj ([("code", JVal.str code), ("message", JVal.str message)]
      ++ (match status with | some s => [("status", JVal.num s)] | none => [])
      ++ (match path with | some p => [("path", JVal.str p)] | none => [])
      ++ (match level with | some l => [("level", levelToJVal l)] | none => [])
      ++ (match meta with | some m => [("meta", JVal.obj m)] | none => [])
      ++ (match cause with | some c => [("cause", errorToJVal c)] | none => []))

/-- compactError of core/result.ts: c and m always set; s when status is not
undefined; p and l only when truthy (a present level is always truthy, a
present path only when non-empty); meta and cause when truthy (objects are
always truthy); cause compacted recursively. -/
def compactError : ErrorDetail → JVal
  | .mk code message status path level meta cause =>
    .obj ([("c", JVal.str code), ("m", JVal.str message)]
      ++ (match status with | some s => [("s", JVal.num s)] | none => [])
      ++ (match path with
          | some p => if p ≠ "" then [("p", JVal.str p)] else []
          | none => [])
      ++ (match level with | some l => [("l", levelToJVal l)] | none => [])
      ++ (match meta with | some m => [("meta", JVal.obj m)] | none => [])
      ++ (match cause with | some c => [("cause", compactError c)] | none => []))

/-- expandError of core/result.ts, over an arbitrary parsed JSON value.
Property access on null or undefined throws a TypeError (the Except error
case); on other non-objects every property read yields undefined.
The JS object literal assigns code and message unconditionally, then the
optional fields are assigned in source order, which appends the keys. -/
def expandError (v : JVal) : Except String JVal :=
  match v with
  | .obj fs =>
    let code := jsOr (getKey fs "c") (getKey fs "code")
    let message := jsOr (getKey fs "m") (getKey fs "message")
    let e0 := [("code", code), ("message", message)]
    let e1 := if !isUndef (getKey fs "s") || !isUndef (getKey fs "status") then
        e0 ++ [("status", jsNullish (getKey fs "s") (getKey fs "status"))]
      else e0
    let e2 := if truthy (getKey fs "p") || truthy (getKey fs "path") then
        e1 ++ [("path", jsNullish (getKey fs "p") (getKey fs "path"))]
      else e1
    let e3 := if truthy (getKey fs "l") || truthy (getKey fs "level") then
        e2 ++ [("level", jsNullish (getKey fs "l") (getKey fs "level"))]
      else e2
    let e4 := if truthy (getKey fs "meta") then
        e3 ++ [("meta", getKey fs "meta")]
      else e3
    if truthy (getKey fs "cause") then
      match expandError (getKey fs "cause") with
      | .ok c => .ok (.obj (e4 ++ [("cause", c)]))
      | .error msg => .error msg
    else .ok (.obj e4)
  | .null => .error "Cannot read properties of null"
  | .undefined => .error "Cannot read properties of undefined"
  | _ => .ok (.obj [("code", JVal.undefined), ("message", JVal.undefined)])
termination_by sizeOf v
decreasing_by
  have h := getKey_sizeOf_lt fs "cause"
  simp only [JVal.obj.sizeOf_spec]
  omega

/-- parsed.errors.map(e => expandError(e)) with left-to-right evaluation: the
first thrown TypeError propagates. -/
def expandList : List JVal → Except String (List JVal)
  | [] => .ok []
  | e :: rest =>
    match expandError e with
    | .ok e2 =>
      match expandList rest with
      | .ok rest2 => .ok (e2 :: rest2)
      | .error msg => .error msg
    | .error msg => .error msg

/-- Truthiness safety of an error chain: codes and messages non-empty and no
empty-string path anywhere, so the compact codec's truthy/falsy-or checks do
not drop or blank any field. -/
def ErrorDetail.truthySafe : ErrorDetail → Bool
  | .mk code message _ path _ _ cause =>
    code != "" && message != "" &&
    (match path with | some p => p != "" | none => true) &&
    (match cause with | some c => c.truthySafe | none => true)

/-- The typed Result as held by ResultImpl of core/result.ts: payload (none
conflates JS null/undefined), ordered errors, optional status, optional meta
(a Record flattened by toJSON). -/
structure ResultT where
  data : Option JVal
  errors : List ErrorDetail
  status : Option Int
  meta : Option (List (String × JVal))

/-- ResultImpl.isOk: errors.length === 0. -/
def ResultT.isOk (r : ResultT) : Bool := r.errors.length == 0

/-- ResultImpl.isOkWithData: errors.length === 0 && data !== null. -/
def ResultT.isOkWithData (r : ResultT) : Bool :=
  r.errors.length == 0 && r.data.isSome

/-- The per-entry test of ResultImpl.isError: level missing (falsy) or
"error" or "critical". -/
def levelErrorish : Option ErrorLevel → Bool
  | none => true
  | some ErrorLevel.error => true
  | some ErrorLevel.critical => true
  | some _ => false

/-- ResultImpl.isError: scans errors for a missing/error/critical level. -/
def ResultT.isError (r : ResultT) : Bool :=
  r.errors.any fun e => levelErrorish e.level

/-- ResultImpl.hasWarning: scans errors for level === "warning". -/
def ResultT.hasWarning (r : ResultT) : Bool :=
  r.errors.any fun e => e.level == some ErrorLevel.warning

/-- The field list built by ResultImpl.toJSON(compact?): errors always
present (compacted per entry when compact); data only when loosely non-null;
status only when defined; then every meta key assigned individually onto the
top-level object. -/
def ResultT.toJSONFields (r : ResultT) (compact : Bool) :
    List (String × JVal) :=
  let base := [("errors",
    JVal.arr (if compact then r.errors.map compactError
              else r.errors.map errorToJVal))]
  let withData := match r.data with
    | some d => setKey base "data" d
    | none => base
  let withStatus := match r.status with
    | some s => setKey withData "status" (JVal.num s)
    | none => withData
  match r.meta with
  | some mfs => mfs.foldl (fun acc kv => setKey acc kv.1 kv.2) withStatus
  | none => withStatus

/-- ResultImpl.toJSON(compact?): the assembled plain object. -/
def ResultT.toJSON (r : ResultT) (compact : Bool) : JVal :=
  .obj (r.toJSONFields compact)

/-- The decoded value of the data slot: the library treats null and a
missing (undefined) key the same way, both meaning no payload. -/
def statusToJVal : Option Int → JVal
  | some s => .num s
  | none => .undefined

def metaToJVal : Option (List (String × JVal)) → JVal
  | some fs => .obj fs
  | none => .undefined

/-- A well-formed payload slot: a present payload is an actual value, not
the null/undefined sentinel (the conflation invariant of the embedding). -/
def dataWF : Option JVal → Bool
  | some v => !(isNull v || isUndef v)
  | none => true

/-- The meta record avoids a given top-level key (flattening meta into the
toJSON output would otherwise overwrite that key). -/
def metaSafeKey : Option (List (String × JVal)) → String → Bool
  | some mfs, k => mfs.all fun kv => kv.1 != k
  | none, _ => true

/-- The JS value sitting in the encoded data slot: the payload itself when
present, undefined (absent key) otherwise. -/
def dataSlotJVal : Option JVal → JVal
  | some d => d
  | none => .undefined

/-- A value thrown by a user callback: some msg models an Error instance with
that message, none models a thrown non-Error value. -/
def thrownMessage (t : Option String) (fallback : String) : String :=
  match t with
  | some m => m
  | none => fallback

/-- ResultImpl.map: error fast path, null-data fast path, then the callback
inside try/catch; a throw becomes the synthesized MAP_ERROR detail with
overall status 500 and the original meta. -/
def ResultT.map (r : ResultT) (fn : JVal → Except (Option String) JVal) :
    ResultT :=
  if r.errors.length > 0 then ⟨none, r.errors, r.status, r.meta⟩
  else match r.data with
  | none => ⟨none, [], r.status, r.meta⟩
  | some d =>
    match fn d with
    | .ok newData => ⟨normJS newData, [], r.status, r.meta⟩
    | .error t =>
      ⟨none,
       [.mk "MAP_ERROR" (thrownMessage t "Error in map function") (some 500)
          none (some ErrorLevel.error) none none],
       some 500, r.meta⟩

/-- ResultImpl.flatMap: same fast paths; the callback's Result is returned
unchanged; a throw becomes the synthesized FLATMAP_ERROR detail. -/
def ResultT.flatMap (r : ResultT)
    (fn : JVal → Except (Option String) ResultT) : ResultT :=
  if r.errors.length > 0 then ⟨none, r.errors, r.status, r.meta⟩
  else match r.data with
  | none => ⟨none, [], r.status, r.meta⟩
  | some d =>
    match fn d with
    | .ok r2 => r2
    | .error t =>
      ⟨none,
       [.mk "FLATMAP_ERROR" (thrownMessage t "Error in flatMap function")
          (some 500) none (some ErrorLevel.error) none none],
       some 500, r.meta⟩

/-- The Result built by createResult inside fromJson from untyped parsed
JSON: all four fields are raw JS values (undefined where the parsed object has no
such key). -/
structure ResultV where
  data : JVal
  errors : List JVal
  status : JVal
  meta : JVal

/-- The JS in-operator on an arbitrary value: field lookup on objects, plain
false for the library's keys on arrays, and a TypeError on any primitive
(including null and undefined). -/
def jsHasProp (v : JVal) (k : String) : Except String Bool :=
  match v with
  | .obj fs => .ok (hasKey fs k)
  | .arr _ => .ok false
  | _ => .error "Cannot use in operator"

/-- The try-block of fromJson in utils/serialization.ts, with the JSON.parse
outcome as input: shape check, first-entry compact detection, expansion of
every entry when compact, then createResult on data/errors/status/meta. -/
def fromJsonTry (parsed : Except String JVal) : Except String ResultV :=
  match parsed with
  | .error msg => .error msg
  | .ok p =>
    match p with
    | .obj fs =>
      match getKey fs "errors" with
      | .arr es =>
        let detect : Except String Bool :=
          match es with
          | [] => .ok false
          | e0 :: _ =>
            match jsHasProp e0 "c" with
            | .ok b =>
              if b then jsHasProp e0 "m" else .ok false
            | .error msg => .error msg
        match detect with
        | .error msg => .error msg
        | .ok isCompact =>
          match (if isCompact then expandList es else .ok es) with
          | .error msg => .error msg
          | .ok errors =>
            .ok ⟨getKey fs "data", errors, getKey fs "status",
                 getKey fs "meta"⟩
      | _ => .error "Invalid JSON"
    | _ => .error "Invalid JSON"

/-- The catch-branch Result of fromJson: data null, a single INVALID_JSON
detail (code, message, status, level in literal order), overall status 400
and no meta. -/
def invalidJsonResult (msg : String) : ResultV :=
  ⟨.null,
   [errorToJVal (.mk "INVALID_JSON" msg (some 400) none
      (some ErrorLevel.error) none none)],
   .num 400, .undefined⟩

/-- fromJson of utils/serialization.ts: the try block with every thrown error
converted to the INVALID_JSON Result carrying the thrown message. -/
def fromJson (parsed : Except String JVal) : ResultV :=
  match fromJsonTry parsed with
  | .ok r => r
  | .error msg => invalidJsonResult msg

/-- The 5xx scan of inferStatus in utils/http.ts: first error whose status is
truthy and at least 500, returning that status. -/
def findStatus500 : List ErrorDetail → Option Int
  | [] => none
  | e :: rest =>
    match e.status with
    | some s => if s != 0 && s ≥ 500 then some s else findStatus500 rest
    | none => findStatus500 rest

/-- inferStatus of utils/http.ts: explicit status, else 200/204 by data
presence on success, else the first truthy 5xx error status, else the first
error's status defaulted to 400. -/
def inferStatus (r : ResultT) : Int :=
  match r.status with
  | some s => s
  | none =>
    if r.isOk then (if r.data.isSome then 200 else 204)
    else
      match findStatus500 r.errors with
      | some s => s
      | none =>
        match r.errors with
        | [] => 400
        | e :: _ =>
          match e.status with
          | some s => s
          | none => 400

/-- Status inference as the spec phrases it: explicit status when present;
else 200 when data is present and 204 when absent for an error-free Result;
else the status of the first error whose status is at least 500; else the
first error's status; else 400. Stated from the spec's words, to be compared
with inferStatus as translated from the code. -/
def inferStatusSpec (r : ResultT) : Int :=
  match r.status with
  | some s => s
  | none =>
    if r.errors.isEmpty then (if r.data.isSome then 200 else 204)
    else
      match r.errors.find? (fun e => (e.status.getD 0) ≥ 500) with
      | some e => e.status.getD 0
      | none =>
        match r.errors.head? with
        | some e => e.status.getD 400
        | none => 400

mutual
/-- JS String(value) for the values that can reach the template
interpolation: primitives exactly, arrays joined by commas with null and
undefined elements blank (inlined into the join for the recursion), plain
objects as object Object in brackets. -/
def jsToString : JVal → String
  | .undefined => "undefined"
  | .null => "null"
  | .bool true => "true"
  | .bool false => "false"
  | .num n => toString n
  | .str s => s
  | .arr xs => jsArrJoin xs
  | .obj _ => "[object Object]"

def jsArrJoin : List JVal → String
  | [] => ""
  | [.undefined] => ""
  | [.null] => ""
  | [x] => jsToString x
  | .undefined :: y :: rest => "," ++ jsArrJoin (y :: rest)
  | .null :: y :: rest => "," ++ jsArrJoin (y :: rest)
  | x :: y :: rest => jsToString x ++ "," ++ jsArrJoin (y :: rest)
end

/-- GetSubstitution of the ECMAScript String.prototype.replace for a string
replacement and a regex with no capture groups: in the replacement, two
dollars insert one dollar, dollar-ampersand inserts the matched substring,
dollar followed by the backquote character (code 96) inserts the part of the
input before the match, dollar followed by the apostrophe character (code
39) inserts the part after the match; with no capture groups a dollar
followed by anything else (digits and angle names included) stays literal. -/
def getSubstitution :
    List Char → List Char → List Char → List Char → List Char
  | [], _, _, _ => []
  | ['$'], _, _, _ => ['$']
  | '$' :: c :: rest, matched, before, after =>
    if c = '$' then '$' :: getSubstitution rest matched before after
    else if c = '&' then matched ++ getSubstitution rest matched before after
    else if c = Char.ofNat 96 then
      before ++ getSubstitution rest matched before after
    else if c = Char.ofNat 39 then
      after ++ getSubstitution rest matched before after
    else '$' :: c :: getSubstitution rest matched before after
  | c :: rest, matched, before, after =>
    c :: getSubstitution rest matched before after

/-- All-occurrences left-to-right non-overlapping replacement on character
lists: done is the already-consumed prefix of the original input (the
dollar-backquote portion), the part after each match is the dollar-apostrophe
portion, and every inserted replacement goes through getSubstitution. The
step budget makes the recursion structural; each step consumes at least one
character, so any budget past the input length is exact. -/
def replaceFuel :
    Nat → List Char → List Char → List Char → List Char → List Char
  | 0, _, s, _, _ => s
  | _ + 1, _, [], _, _ => []
  | fuel + 1, done, c :: rest, pat, rep =>
    if pat.isPrefixOf (c :: rest) then
      getSubstitution rep pat done ((c :: rest).drop pat.length) ++
        replaceFuel fuel (done ++ pat) ((c :: rest).drop pat.length) pat rep
    else c :: replaceFuel fuel (done ++ [c]) rest pat rep

/-- message.replace(new RegExp(brace-wrapped key, g), str): for keys free of
regex metacharacters (regexSafeKey below) the pattern is the literal
brace-wrapped key, matched left to right non-overlapping, and the string
replacement is interpreted through GetSubstitution. -/
def jsReplaceAll (s pat rep : String) : String :=
  String.mk (replaceFuel (s.data.length + 1) [] s.data pat.data rep.data)

/-- A character that is not a regex metacharacter, so that it stands for
itself inside the RegExp built from the key (braces included, since a brace
in the key would change the token being matched). -/
def regexSafeChar (c : Char) : Bool :=
  !(c = '\\' || c = '^' || c = '$' || c = '.' || c = '|' || c = '?' ||
    c = '*' || c = '+' || c = '(' || c = ')' || c = '[' || c = ']' ||
    c = '\x7b' || c = '\x7d')

/-- A template variable name whose RegExp is the literal brace-wrapped name:
for such keys jsReplaceAll is exactly the source's replace call. -/
def regexSafeKey (k : String) : Bool := k.data.all regexSafeChar

/-- The reserved parameter names skipped by the interpolation loop of
defineErrorAdvanced. -/
def reservedKey (k : String) : Bool :=
  k == "path" || k == "meta" || k == "cause" || k == "message"

/-- The interpolation loop of defineErrorAdvanced: for each own key of the
params object in insertion order, skipping the reserved names and undefined
values, replace every occurrence of the brace-wrapped key in the message
with the stringified value as a JS replacement string (dollar substitution
applied by jsReplaceAll). Exact for regex-metacharacter-free keys, which the
interpolation theorem requires via regexSafeKey. -/
def interpolate (template : String) (vars : List (String × JVal)) : String :=
  vars.foldl (fun msg kv =>
    if reservedKey kv.1 || isUndef kv.2 then msg
    else jsReplaceAll msg ("\x7b" ++ kv.1 ++ "\x7d") (jsToString kv.2)) template

/-- The parameter object accepted by a builder from defineErrorAdvanced: the
template variables in object insertion order plus the four reserved base
params. -/
structure ErrParams where
  vars : List (String × JVal)
  path : Option String
  meta : Option (List (String × JVal))
  cause : Option ErrorDetail
  message : Option String

/-- The truthiness of the message override (params?.message || template and
the !params?.message interpolation guard both use it). -/
def msgTruthy : Option String → Bool
  | some m => m != ""
  | none => false

/-- The params?.path && spread: the path lands on the ErrorDetail only when
truthy, i.e. present and non-empty. -/
def normPath : Option String → Option String
  | some s => if s ≠ "" then some s else none
  | none => none

/-- A builder produced by defineErrorAdvanced in factories/errors-advanced.ts
applied to its params: truthy message override used verbatim, otherwise the
template with interpolation; status kept when defined, level and the three
optional base params only when truthy. -/
def defineErrorAdvanced (code template : String) (status : Option Int)
    (level : Option ErrorLevel) (params : Option ErrParams) : ErrorDetail :=
  match params with
  | none => .mk code template status none level none none
  | some p =>
    let message :=
      if msgTruthy p.message then
        match p.message with
        | some m => m
        | none => template
      else interpolate template p.vars
    .mk code message status (normPath p.path) level p.meta p.cause

theorem levelErrorish_iff (o : Option ErrorLevel) :
    levelErrorish o = true ↔
      o = none ∨ o = some ErrorLevel.error ∨ o = some ErrorLevel.critical := by
  cases o with
  | none => simp [levelErrorish]
  | some l => cases l <;> simp [levelErrorish]

/-- C3: isOk is exactly emptiness of errors; isOkWithData additionally
requires a non-null payload; isError holds exactly when some entry has level
absent, error, or critical; hasWarning exactly when some entry has level
warning; in particular a Result whose only errors are warnings has
isError false and hasWarning true. -/
theorem spec_c3_predicates (r : ResultT) :
    (r.isOk = true ↔ r.errors = []) ∧
    (r.isOkWithData = true ↔ r.errors = [] ∧ r.data ≠ none) ∧
    (r.isError = true ↔ ∃ e ∈ r.errors,
       e.level = none ∨ e.level = some ErrorLevel.error ∨
       e.level = some ErrorLevel.critical) ∧
    (r.hasWarning = true ↔ ∃ e ∈ r.errors, e.level = some ErrorLevel.warning) ∧
    (r.errors ≠ [] → (∀ e ∈ r.errors, e.level = some ErrorLevel.warning) →
       r.isError = false ∧ r.hasWarning = true) := by
  refine ⟨?_, ?_, ?_, ?_, ?_⟩
  · simp [ResultT.isOk, List.length_eq_zero]
  · simp [ResultT.isOkWithData, List.length_eq_zero, Option.isSome_iff_ne_none]
  · simp only [ResultT.isError, List.any_eq_true]
    constructor
    · rintro ⟨e, he, hl⟩
      exact ⟨e, he, (levelErrorish_iff e.level).mp hl⟩
    · rintro ⟨e, he, hl⟩
      exact ⟨e, he, (levelErrorish_iff e.level).mpr hl⟩
  · simp [ResultT.hasWarning, List.any_eq_true]
  · intro hne hall
    constructor
    · rw [← Bool.not_eq_true]
      simp only [ResultT.isError, List.any_eq_true]
      rintro ⟨e, he, hl⟩
      rw [hall e he] at hl
      simp [levelErrorish] at hl
    · obtain ⟨e, he⟩ := List.exists_mem_of_ne_nil r.errors hne
      simp only [ResultT.hasWarning, List.any_eq_true]
      exact ⟨e, he, by simp [hall e he]⟩

/-- Witness for C3 at a Result whose only error is a warning. -/
theorem spec_c3_predicates_witness :
    (ResultT.mk none [.mk "W" "w" none none (some ErrorLevel.warning) none none]
        none none).isError = false ∧
    (ResultT.mk none [.mk "W" "w" none none (some ErrorLevel.warning) none none]
        none none).hasWarning = true :=
  (spec_c3_predicates _).2.2.2.2 (by simp)
    (by
      intro e he
      rw [List.mem_singleton] at he
      subst he
      rfl)

/-- C2: with non-empty errors, map and flatMap return the same errors,
status and meta with data forced to null; with empty errors and null data
they return null data, empty errors, same status and meta. The right-hand
sides do not mention the transform functions, so the results are independent
of them: the callbacks are never invoked on these paths. -/
theorem spec_c2_shortcircuit (r : ResultT)
    (fn : JVal → Except (Option String) JVal)
    (fm : JVal → Except (Option String) ResultT) :
    (r.errors ≠ [] →
      r.map fn = ⟨none, r.errors, r.status, r.meta⟩ ∧
      r.flatMap fm = ⟨none, r.errors, r.status, r.meta⟩) ∧
    (r.errors = [] → r.data = none →
      r.map fn = ⟨none, [], r.status, r.meta⟩ ∧
      r.flatMap fm = ⟨none, [], r.status, r.meta⟩) := by
  constructor
  · intro hne
    have hlen : 0 < r.errors.length := List.length_pos.mpr hne
    constructor
    · simp [ResultT.map, hlen]
    · simp [ResultT.flatMap, hlen]
  · intro he hd
    have hlen : ¬0 < r.errors.length := by simp [he]
    constructor
    · simp [ResultT.map, hlen, hd, he]
    · simp [ResultT.flatMap, hlen, hd, he]

/-- Witness for C2 on a one-error Result and on an empty success Result. -/
theorem spec_c2_shortcircuit_witness :
    ((ResultT.mk (some (.num 7))
        [.mk "E" "boom" (some 400) none none none none]
        (some 400) none).map (fun v => .ok v) =
      ⟨none, [.mk "E" "boom" (some 400) none none none none],
       some 400, none⟩) ∧
    ((ResultT.mk none [] (some 204) none).flatMap
        (fun _ => .ok ⟨some (.num 1), [], none, none⟩) =
      ⟨none, [], some 204, none⟩) :=
  ⟨((spec_c2_shortcircuit _ (fun v => .ok v)
      (fun _ => .ok ⟨some (.num 1), [], none, none⟩)).1 (by simp)).1,
   ((spec_c2_shortcircuit _ (fun v => .ok v)
      (fun _ => .ok ⟨some (.num 1), [], none, none⟩)).2 rfl rfl).2⟩

/-- C4: on an error-free Result with data, a throwing callback yields a
Result with data null and exactly one synthesized error (MAP_ERROR for map,
FLATMAP_ERROR for flatMap) with status 500 and level error, the message
taken from the thrown Error or the generic fallback, the original meta kept
and the overall status replaced by 500. Both operations are total functions
here: the exception never propagates. -/
theorem spec_c4_throw (r : ResultT) (d : JVal)
    (fn : JVal → Except (Option String) JVal)
    (fm : JVal → Except (Option String) ResultT)
    (t u : Option String)
    (he : r.errors = []) (hd : r.data = some d)
    (hfn : fn d = .error t) (hfm : fm d = .error u) :
    r.map fn =
      ⟨none,
       [.mk "MAP_ERROR" (thrownMessage t "Error in map function") (some 500)
          none (some ErrorLevel.error) none none],
       some 500, r.meta⟩ ∧
    r.flatMap fm =
      ⟨none,
       [.mk "FLATMAP_ERROR" (thrownMessage u "Error in flatMap function")
          (some 500) none (some ErrorLevel.error) none none],
       some 500, r.meta⟩ := by
  have hlen : ¬0 < r.errors.length := by simp [he]
  constructor
  · simp [ResultT.map, hlen, hd, hfn]
  · simp [ResultT.flatMap, hlen, hd, hfm]

/-- Witness for C4: a throw with an Error message in map, a non-Error throw
in flatMap. -/
theorem spec_c4_throw_witness :
    ((ResultT.mk (some (.num 2)) [] (some 200)
        (some [("traceId", JVal.str "t")])).map
        (fun _ => .error (some "boom")) =
      ⟨none,
       [.mk "MAP_ERROR" "boom" (some 500) none (some ErrorLevel.error)
          none none],
       some 500, some [("traceId", JVal.str "t")]⟩) ∧
    ((ResultT.mk (some (.num 2)) [] (some 200)
        (some [("traceId", JVal.str "t")])).flatMap
        (fun _ => .error none) =
      ⟨none,
       [.mk "FLATMAP_ERROR" "Error in flatMap function" (some 500) none
          (some ErrorLevel.error) none none],
       some 500, some [("traceId", JVal.str "t")]⟩) :=
  spec_c4_throw _ (.num 2) _ _ (some "boom") none rfl rfl rfl rfl

theorem findStatus500_eq_find (es : List ErrorDetail) :
    findStatus500 es =
      (es.find? (fun e => (e.status.getD 0) ≥ 500)).map
        (fun e => e.status.getD 0) := by
  induction es with
  | nil => simp [findStatus500]
  | cons e rest ih =>
    cases hs : e.status with
    | none => simp [findStatus500, List.find?, hs, ih]
    | some s =>
      by_cases h : s ≥ 500
      · have hz : (s != 0) = true := by
          simp only [bne_iff_ne, ne_eq]
          omega
        simp [findStatus500, List.find?, hs, h, hz]
      · simp [findStatus500, List.find?, hs, h, ih]

/-- C8: inferStatus follows exactly the spec's priority: explicit status;
else 200/204 by data presence on an error-free Result; else the status of
the first error whose status is at least 500; else the first error's status;
else 400. -/
theorem spec_c8_inferStatus (r : ResultT) : inferStatus r = inferStatusSpec r := by
  unfold inferStatus inferStatusSpec
  cases r.status with
  | some s => rfl
  | none =>
    cases he : r.errors with
    | nil => simp [ResultT.isOk, he]
    | cons e rest =>
      have hok : r.isOk = false := by simp [ResultT.isOk, he]
      rw [findStatus500_eq_find]
      cases hf : (e :: rest).find? (fun e => (e.status.getD 0) ≥ 500) with
      | none =>
        simp only [hok, Option.map_none, List.isEmpty_cons, Bool.false_eq_true,
          if_false, List.head?_cons]
        cases e.status <;> simp
      | some e2 => simp [hok]

/-- C9 (amended): a truthy (non-empty) message override is used verbatim and
bypasses interpolation; an empty-string override is falsy and ignored, the
template being used and interpolated exactly as with no override; without a
truthy override the message is the template with every brace-wrapped
non-reserved, non-undefined param substituted in as a JS replacement string
(dollar substitution applied); path lands on the ErrorDetail only when
provided non-empty, meta and cause exactly when provided. The regexSafeKey
hypothesis confines the statement to variable names free of regex
metacharacters, for which the source's RegExp is the literal brace-wrapped
key that jsReplaceAll models. -/
theorem spec_c9_template (code template : String) (status : Option Int)
    (level : Option ErrorLevel) (p : ErrParams)
    (hkeys : p.vars.all (fun kv => regexSafeKey kv.1) = true) :
    (∀ m, p.message = some m → m ≠ "" →
      defineErrorAdvanced code template status level (some p) =
        .mk code m status (normPath p.path) level p.meta p.cause) ∧
    (p.message = none →
      defineErrorAdvanced code template status level (some p) =
        .mk code (interpolate template p.vars) status (normPath p.path)
          level p.meta p.cause) ∧
    (p.message = some "" →
      defineErrorAdvanced code template status level (some p) =
        .mk code (interpolate template p.vars) status (normPath p.path)
          level p.meta p.cause) := by
  refine ⟨?_, ?_, ?_⟩
  · intro m hm hne
    simp [defineErrorAdvanced, msgTruthy, hm, hne]
  · intro hm
    simp [defineErrorAdvanced, msgTruthy, hm]
  · intro hm
    simp [defineErrorAdvanced, msgTruthy, hm]

/-- Witness for C9: the message template with one variable interpolated, and
a verbatim override. -/
theorem spec_c9_template_witness :
    (defineErrorAdvanced "USER_NOT_FOUND" "User \x7bid\x7d not found"
        (some 404) none
        (some ⟨[("id", JVal.num 42)], none, none, none, none⟩) =
      .mk "USER_NOT_FOUND" "User 42 not found" (some 404) none none
        none none) ∧
    (defineErrorAdvanced "USER_NOT_FOUND" "User \x7bid\x7d not found"
        (some 404) none
        (some ⟨[("id", JVal.num 42)], none, none, none, some "custom"⟩) =
      .mk "USER_NOT_FOUND" "custom" (some 404) none none none none) := by
  constructor
  · have h := (spec_c9_template "USER_NOT_FOUND" "User \x7bid\x7d not found"
      (some 404) none ⟨[("id", JVal.num 42)], none, none, none, none⟩
      (by decide)).2.1 rfl
    rw [h]
    simp only [normPath]
    rw [show interpolate "User \x7bid\x7d not found" [("id", JVal.num 42)] =
      "User 42 not found" from rfl]
  · exact (spec_c9_template "USER_NOT_FOUND" "User \x7bid\x7d not found"
      (some 404) none ⟨[("id", JVal.num 42)], none, none, none,
        some "custom"⟩ (by decide)).1 "custom" rfl (by simp)

/-- Counterexample for C9 as stated: an explicit empty-string message
override is falsy, so it is not used verbatim (the template wins and is
interpolated); an explicit empty-string path does not appear on the
resulting ErrorDetail even though it was provided in the call; and a
supplied value whose stringification is two dollars is not inserted as that
stringified value, since the string replacement applies dollar substitution
(two dollars collapse to one). -/
theorem spec_c9_template_cex :
    (defineErrorAdvanced "X" "T" none none
        (some ⟨[], none, none, none, some ""⟩)).message = "T" ∧
    "T" ≠ "" ∧
    (defineErrorAdvanced "X" "T" none none
        (some ⟨[], some "", none, none, none⟩)).path = none ∧
    (defineErrorAdvanced "X" "a\x7bv\x7db" none none
        (some ⟨[("v", JVal.str "$$")], none, none, none, none⟩)).message =
      "a$b" ∧
    "a$b" ≠ "a" ++ "$$" ++ "b" := by
  refine ⟨rfl, by simp, rfl, by decide, by simp⟩

/-- The shape check of fromJson: the parsed value is an object whose errors
property is an array. -/
def hasErrorsArray : JVal → Bool
  | .obj fs =>
    match getKey fs "errors" with
    | .arr _ => true
    | _ => false
  | _ => false

/-- C5: fromJson is total (it returns a plain Result, never re-raising); on
a JSON.parse failure it returns the INVALID_JSON Result carrying the thrown
message, on a shape failure the fixed fallback text, and that Result has
data null, overall status 400, and exactly one error with code INVALID_JSON,
status 400, level error. -/
theorem spec_c5_decode_failure :
    (∀ msg, fromJson (.error msg) = invalidJsonResult msg) ∧
    (∀ p, hasErrorsArray p = false →
      fromJson (.ok p) = invalidJsonResult "Invalid JSON") ∧
    (∀ msg, invalidJsonResult msg =
      ⟨.null,
       [.obj [("code", JVal.str "INVALID_JSON"), ("message", JVal.str msg),
              ("status", JVal.num 400), ("level", JVal.str "error")]],
       .num 400, .undefined⟩) := by
  refine ⟨fun msg => rfl, ?_, fun msg => rfl⟩
  intro p hp
  cases p with
  | obj fs =>
    simp only [hasErrorsArray] at hp
    unfold fromJson fromJsonTry
    cases hg : getKey fs "errors" <;> simp_all
  | undefined => rfl
  | null => rfl
  | bool b => rfl
  | num n => rfl
  | str s => rfl
  | arr xs => rfl

/-- Witness for C5: a parse failure keeps the thrown message; an object
without an errors array yields the fixed fallback. -/
theorem spec_c5_decode_failure_witness :
    fromJson (.error "Unexpected token o in JSON") =
      invalidJsonResult "Unexpected token o in JSON" ∧
    fromJson (.ok (.obj [("foo", JVal.num 1)])) =
      invalidJsonResult "Invalid JSON" :=
  ⟨spec_c5_decode_failure.1 "Unexpected token o in JSON",
   spec_c5_decode_failure.2.1 (.obj [("foo", JVal.num 1)]) rfl⟩

/-- C10: empty strings are falsy, so the compact codec drops them. A valid
compact-format decode input whose first entry has both c and m keys but an
empty m decodes to an error object whose message is undefined; an
empty-string code survives compaction as c but is lost by the falsy-or
coalescing of expansion; an empty-string path is dropped by compactError's
truthiness check; and at the codec level an empty-string l is likewise
dropped on expansion. The always-present code and message invariant is
broken. -/
theorem spec_c10_falsy_codec :
    (fromJson (.ok (.obj [("errors",
        JVal.arr [.obj [("c", JVal.str "E"), ("m", JVal.str "")]])]))).errors =
      [.obj [("code", JVal.str "E"), ("message", JVal.undefined)]] ∧
    expandError (compactError (.mk "" "x" none none none none none)) =
      .ok (.obj [("code", JVal.undefined), ("message", JVal.str "x")]) ∧
    compactError (.mk "X" "x" none (some "") none none none) =
      .obj [("c", JVal.str "X"), ("m", JVal.str "x")] ∧
    expandError (.obj [("c", JVal.str "E"), ("m", JVal.str "M"),
        ("l", JVal.str "")]) =
      .ok (.obj [("code", JVal.str "E"), ("message", JVal.str "M")]) := by
  refine ⟨?_, ?_, ?_, ?_⟩
  · simp [fromJson, fromJsonTry, jsHasProp, hasKey, expandList,
      expandError.eq_def, getKey, jsOr, jsNullish, truthy, isUndef]
  · simp [compactError, expandError.eq_def, getKey, jsOr, jsNullish, truthy,
      isUndef]
  · simp [compactError]
  · simp [expandError.eq_def, getKey, jsOr, jsNullish, truthy, isUndef]

/-- C7 (amended): with an errors array present, fromJson treats the whole
array as compact exactly when it is non-empty and its first entry has both a
c and an m key, expanding every entry (recursively through cause chains,
provided no entry is null/undefined, which would make the expansion throw);
otherwise the array is used as-is, provided the first entry (if any) is an
object or an array, since the in-operator of the detection check throws on a
primitive first entry. -/
theorem spec_c7_detection (fs : List (String × JVal)) (es : List JVal)
    (h : getKey fs "errors" = .arr es) :
    (es = [] → (fromJson (.ok (.obj fs))).errors = es) ∧
    (∀ g rest es2, es = .obj g :: rest → hasKey g "c" = true →
      hasKey g "m" = true → expandList es = .ok es2 →
      (fromJson (.ok (.obj fs))).errors = es2) ∧
    (∀ g rest, es = .obj g :: rest → (hasKey g "c" && hasKey g "m") = false →
      (fromJson (.ok (.obj fs))).errors = es) ∧
    (∀ xs rest, es = .arr xs :: rest →
      (fromJson (.ok (.obj fs))).errors = es) := by
  refine ⟨?_, ?_, ?_, ?_⟩
  · intro he
    subst he
    simp [fromJson, fromJsonTry, h]
  · intro g rest es2 he hc hm hex
    subst he
    simp [fromJson, fromJsonTry, h, jsHasProp, hc, hm, hex]
  · intro g rest he hcm
    subst he
    cases hc : hasKey g "c" with
    | false => simp [fromJson, fromJsonTry, h, jsHasProp, hc]
    | true =>
      rw [hc] at hcm
      simp only [Bool.true_and] at hcm
      simp [fromJson, fromJsonTry, h, jsHasProp, hc, hcm]
  · intro xs rest he
    subst he
    simp [fromJson, fromJsonTry, h, jsHasProp]

/-- Witness for C7: a one-entry compact array is detected and expanded; a
verbose first entry (code and message keys, no c) is passed through as-is. -/
theorem spec_c7_detection_witness :
    (fromJson (.ok (.obj [("errors",
        JVal.arr [.obj [("c", JVal.str "A"), ("m", JVal.str "B")]])]))).errors =
      [.obj [("code", JVal.str "A"), ("message", JVal.str "B")]] ∧
    (fromJson (.ok (.obj [("errors",
        JVal.arr [.obj [("code", JVal.str "A"),
          ("message", JVal.str "B")]])]))).errors =
      [.obj [("code", JVal.str "A"), ("message", JVal.str "B")]] :=
  ⟨(spec_c7_detection [("errors",
      JVal.arr [.obj [("c", JVal.str "A"), ("m", JVal.str "B")]])]
      [.obj [("c", JVal.str "A"), ("m", JVal.str "B")]] rfl).2.1
      [("c", JVal.str "A"), ("m", JVal.str "B")] [] _ rfl rfl rfl
      (by simp [expandList, expandError.eq_def, getKey, jsOr, jsNullish,
        truthy, isUndef]),
   (spec_c7_detection [("errors",
      JVal.arr [.obj [("code", JVal.str "A"), ("message", JVal.str "B")]])]
      [.obj [("code", JVal.str "A"), ("message", JVal.str "B")]] rfl).2.2.1
      [("code", JVal.str "A"), ("message", JVal.str "B")] [] rfl rfl⟩

/-- Counterexample for C7 as stated: a primitive first entry makes the
detection's in-operator throw, so the array is not used as-is but replaced
by the INVALID_JSON error Result; and with a compact first entry followed by
a null entry, the expansion throws, so the Result is built from INVALID_JSON
instead of the expanded entries. -/
theorem spec_c7_detection_cex :
    (fromJson (.ok (.obj [("errors", JVal.arr [.num 5])]))).errors ≠
      [JVal.num 5] ∧
    jprop ((fromJson (.ok (.obj [("errors",
        JVal.arr [.obj [("c", JVal.str "A"), ("m", JVal.str "B")],
          JVal.null])]))).errors.headD .undefined) "code" =
      .str "INVALID_JSON" ∧
    JVal.str "INVALID_JSON" ≠ .str "A" := by
  refine ⟨?_, ?_, by simp⟩
  · simp [fromJson, fromJsonTry, jsHasProp, getKey, invalidJsonResult,
      errorToJVal]
  · simp [fromJson, fromJsonTry, jsHasProp, hasKey, expandList,
      expandError.eq_def, getKey, jsOr, jsNullish, truthy, isUndef,
      invalidJsonResult, errorToJVal, jprop]

@[simp] theorem truthy_undefined : truthy .undefined = false := rfl

@[simp] theorem truthy_null : truthy .null = false := rfl

@[simp] theorem truthy_str (s : String) : truthy (.str s) = (s != "") := rfl

@[simp] theorem truthy_num (n : Int) : truthy (.num n) = (n != 0) := rfl

@[simp] theorem truthy_arr (xs : List JVal) : truthy (.arr xs) = true := rfl

@[simp] theorem truthy_obj (fs : List (String × JVal)) :
    truthy (.obj fs) = true := rfl

@[simp] theorem isUndef_undefined : isUndef .undefined = true := rfl

@[simp] theorem isUndef_null : isUndef .null = false := rfl

@[simp] theorem isUndef_str (s : String) : isUndef (.str s) = false := rfl

@[simp] theorem isUndef_num (n : Int) : isUndef (.num n) = false := rfl

@[simp] theorem isUndef_arr (xs : List JVal) : isUndef (.arr xs) = false := rfl

@[simp] theorem isUndef_obj (fs : List (String × JVal)) :
    isUndef (.obj fs) = false := rfl

@[simp] theorem jsOr_undefined (b : JVal) : jsOr .undefined b = b := rfl

@[simp] theorem jsOr_str (s : String) (b : JVal) :
    jsOr (.str s) b = if s = "" then b else .str s := by
  by_cases h : s = "" <;> simp [jsOr, h]

@[simp] theorem jsNullish_str (s : String) (b : JVal) :
    jsNullish (.str s) b = .str s := rfl

@[simp] theorem jsNullish_num (n : Int) (b : JVal) :
    jsNullish (.num n) b = .num n := rfl

@[simp] theorem truthy_level (l : ErrorLevel) : truthy (levelToJVal l) = true := by
  cases l <;> rfl

@[simp] theorem jsNullish_level (l : ErrorLevel) (x : JVal) :
    jsNullish (levelToJVal l) x = levelToJVal l := by
  cases l <;> rfl

@[simp] theorem truthy_compactError (e : ErrorDetail) :
    truthy (compactError e) = true := by
  cases e with
  | mk code message status path level meta cause =>
    cases status <;> cases path <;> cases level <;> cases meta <;>
      cases cause <;> simp [compactError]

/-- Expansion inverts compaction on any truthy-safe error chain. -/
theorem expand_compact : ∀ e : ErrorDetail, e.truthySafe = true →
    expandError (compactError e) = .ok (errorToJVal e)
  | .mk code message status path level meta cause, h => by
    cases cause with
    | none =>
      cases status <;> cases path <;> cases level <;> cases meta <;>
        · simp only [ErrorDetail.truthySafe, Bool.and_eq_true, bne_iff_ne,
            ne_eq] at h
          simp only [compactError]
          rw [expandError.eq_def]
          simp_all [getKey, errorToJVal]
    | some c =>
      have hcs : c.truthySafe = true := by
        simp only [ErrorDetail.truthySafe, Bool.and_eq_true] at h
        exact h.2
      have ih := expand_compact c hcs
      cases status <;> cases path <;> cases level <;> cases meta <;>
        · simp only [ErrorDetail.truthySafe, Bool.and_eq_true, bne_iff_ne,
            ne_eq] at h
          simp only [compactError]
          rw [expandError.eq_def]
          simp_all [getKey, errorToJVal]

theorem getKey_foldl_setKey (mfs : List (String × JVal))
    (acc : List (String × JVal)) (k : String)
    (h : ∀ kv ∈ mfs, kv.1 ≠ k) :
    getKey (mfs.foldl (fun a kv => setKey a kv.1 kv.2) acc) k =
      getKey acc k := by
  induction mfs generalizing acc with
  | nil => rfl
  | cons kv rest ih =>
    rw [List.foldl_cons, ih _ (fun x hx => h x (List.mem_cons_of_mem kv hx)),
      getKey_setKey,
      if_neg (fun hh => h kv (List.mem_cons_self kv rest) hh.symm)]

theorem toJSONFields_errors (r : ResultT) (cb : Bool)
    (h : metaSafeKey r.meta "errors" = true) :
    getKey (r.toJSONFields cb) "errors" =
      .arr (if cb then r.errors.map compactError
            else r.errors.map errorToJVal) := by
  obtain ⟨d, errs, st, mt⟩ := r
  cases mt with
  | none =>
    cases d <;> cases st <;>
      simp [ResultT.toJSONFields, getKey_setKey, getKey]
  | some mfs =>
    simp only [metaSafeKey, List.all_eq_true, bne_iff_ne, ne_eq] at h
    cases d <;> cases st <;>
      · simp only [ResultT.toJSONFields]
        rw [getKey_foldl_setKey _ _ _ h]
        simp [getKey_setKey, getKey]

theorem toJSONFields_data (r : ResultT) (cb : Bool)
    (h : metaSafeKey r.meta "data" = true) :
    getKey (r.toJSONFields cb) "data" = dataSlotJVal r.data := by
  obtain ⟨d, errs, st, mt⟩ := r
  cases mt with
  | none =>
    cases d <;> cases st <;>
      simp [ResultT.toJSONFields, dataSlotJVal, getKey_setKey, getKey]
  | some mfs =>
    simp only [metaSafeKey, List.all_eq_true, bne_iff_ne, ne_eq] at h
    cases d <;> cases st <;>
      · simp only [ResultT.toJSONFields]
        rw [getKey_foldl_setKey _ _ _ h]
        simp [dataSlotJVal, getKey_setKey, getKey]

theorem toJSONFields_status (r : ResultT) (cb : Bool)
    (h : metaSafeKey r.meta "status" = true) :
    getKey (r.toJSONFields cb) "status" = statusToJVal r.status := by
  obtain ⟨d, errs, st, mt⟩ := r
  cases mt with
  | none =>
    cases d <;> cases st <;>
      simp [ResultT.toJSONFields, statusToJVal, getKey_setKey, getKey]
  | some mfs =>
    simp only [metaSafeKey, List.all_eq_true, bne_iff_ne, ne_eq] at h
    cases d <;> cases st <;>
      · simp only [ResultT.toJSONFields]
        rw [getKey_foldl_setKey _ _ _ h]
        simp [statusToJVal, getKey_setKey, getKey]

theorem toJSONFields_meta (r : ResultT) (cb : Bool)
    (h : metaSafeKey r.meta "meta" = true) :
    getKey (r.toJSONFields cb) "meta" = .undefined := by
  obtain ⟨d, errs, st, mt⟩ := r
  cases mt with
  | none =>
    cases d <;> cases st <;>
      simp [ResultT.toJSONFields, getKey_setKey, getKey]
  | some mfs =>
    simp only [metaSafeKey, List.all_eq_true, bne_iff_ne, ne_eq] at h
    cases d <;> cases st <;>
      · simp only [ResultT.toJSONFields]
        rw [getKey_foldl_setKey _ _ _ h]
        simp [getKey_setKey, getKey]

theorem jsHasProp_compactError (e : ErrorDetail) :
    jsHasProp (compactError e) "c" = .ok true ∧
    jsHasProp (compactError e) "m" = .ok true := by
  cases e with
  | mk code message status path level meta cause =>
    cases status <;> cases path <;> cases level <;> cases meta <;>
      cases cause <;> simp [compactError, jsHasProp, hasKey]

theorem jsHasProp_errorToJVal_c (e : ErrorDetail) :
    jsHasProp (errorToJVal e) "c" = .ok false := by
  cases e with
  | mk code message status path level meta cause =>
    cases status <;> cases path <;> cases level <;> cases meta <;>
      cases cause <;> simp [errorToJVal, jsHasProp, hasKey]

theorem expandList_compact (es : List ErrorDetail)
    (h : ∀ e ∈ es, e.truthySafe = true) :
    expandList (es.map compactError) = .ok (es.map errorToJVal) := by
  induction es with
  | nil => rfl
  | cons e rest ih =>
    have he := expand_compact e (h e (List.mem_cons_self e rest))
    have ih2 := ih (fun x hx => h x (List.mem_cons_of_mem e hx))
    simp [expandList, he, ih2]

theorem normJS_dataWF (o : Option JVal) (h : dataWF o = true) :
    normJS (dataSlotJVal o) = o := by
  cases o with
  | none => rfl
  | some d =>
    cases d with
    | undefined => exact absurd h (by decide)
    | null => exact absurd h (by decide)
    | bool b => rfl
    | num n => rfl
    | str s => rfl
    | arr xs => rfl
    | obj fs => rfl


/-- C1 (amended): decoding the verbose encoding restores the data (up to the
null/undefined conflation of the payload slot), errors and status of every
Result, data-bearing or empty-data, whose meta (if present) carries none of
the top-level keys errors, data or status (toJSON flattens meta last, so
such a key would overwrite the encoded field). Meta itself is restored only
when absent: when R.meta also lacks a literal meta key, the decoded meta is
undefined whatever R.meta was, so a present meta is lost on the round trip
(see the counterexample). The jnoUndef hypothesis covers the JSON text
layer: stringify-then-parse is the identity exactly on undefined-free
values. -/
theorem spec_c1_verbose_roundtrip (R : ResultT)
    (hdata : dataWF R.data = true)
    (hm1 : metaSafeKey R.meta "errors" = true)
    (hm2 : metaSafeKey R.meta "data" = true)
    (hm3 : metaSafeKey R.meta "status" = true)
    (hnu : jnoUndef (R.toJSON false) = true) :
    (fromJson (.ok (R.toJSON false))).errors = R.errors.map errorToJVal ∧
    normJS (fromJson (.ok (R.toJSON false))).data = R.data ∧
    (fromJson (.ok (R.toJSON false))).status = statusToJVal R.status ∧
    (metaSafeKey R.meta "meta" = true →
      (fromJson (.ok (R.toJSON false))).meta = .undefined) ∧
    (R.meta = none →
      (fromJson (.ok (R.toJSON false))).meta = metaToJVal R.meta) := by
  have herr := toJSONFields_errors R false hm1
  simp only [Bool.false_eq_true, if_false] at herr
  have hd := toJSONFields_data R false hm2
  have hst := toJSONFields_status R false hm3
  have heval : fromJson (.ok (R.toJSON false)) =
      ⟨getKey (R.toJSONFields false) "data", R.errors.map errorToJVal,
       getKey (R.toJSONFields false) "status",
       getKey (R.toJSONFields false) "meta"⟩ := by
    cases hE : R.errors with
    | nil =>
      rw [hE] at herr
      simp only [List.map_nil] at herr
      simp [fromJson, fromJsonTry, ResultT.toJSON, herr]
    | cons e0 t =>
      rw [hE] at herr
      simp only [List.map_cons] at herr
      simp [fromJson, fromJsonTry, ResultT.toJSON, herr,
        jsHasProp_errorToJVal_c]
  rw [heval]
  refine ⟨rfl, ?_, ?_, ?_, ?_⟩
  · rw [hd]
    exact normJS_dataWF R.data hdata
  · exact hst
  · intro hm4
    exact toJSONFields_meta R false hm4
  · intro hmn
    rw [toJSONFields_meta R false (by rw [hmn]; rfl), hmn]
    rfl

/-- Witness for C1 on a data-bearing Result with one error, a status and a
traceId meta entry (whose key collides with nothing), plus the meta
conjuncts at a meta-free Result. -/
theorem spec_c1_verbose_roundtrip_witness :
    (fromJson (.ok ((ResultT.mk (some (.obj [("id", JVal.num 1)]))
        [.mk "W" "warn" (some 400) none (some ErrorLevel.warning) none none]
        (some 207) (some [("traceId", JVal.str "t")])).toJSON false))).errors =
      [errorToJVal
        (.mk "W" "warn" (some 400) none (some ErrorLevel.warning) none none)] ∧
    normJS (fromJson (.ok ((ResultT.mk (some (.obj [("id", JVal.num 1)]))
        [.mk "W" "warn" (some 400) none (some ErrorLevel.warning) none none]
        (some 207) (some [("traceId", JVal.str "t")])).toJSON false))).data =
      some (.obj [("id", JVal.num 1)]) ∧
    (fromJson (.ok ((ResultT.mk (some (.obj [("id", JVal.num 1)]))
        [.mk "W" "warn" (some 400) none (some ErrorLevel.warning) none none]
        (some 207) (some [("traceId", JVal.str "t")])).toJSON false))).status =
      statusToJVal (some 207) ∧
    (fromJson (.ok ((ResultT.mk (some (.obj [("id", JVal.num 1)]))
        [.mk "W" "warn" (some 400) none (some ErrorLevel.warning) none none]
        (some 207) (some [("traceId", JVal.str "t")])).toJSON false))).meta =
      .undefined ∧
    (fromJson (.ok ((ResultT.mk none [] none none).toJSON false))).meta =
      metaToJVal none :=
  have h1 := spec_c1_verbose_roundtrip
    (ResultT.mk (some (.obj [("id", JVal.num 1)]))
      [.mk "W" "warn" (some 400) none (some ErrorLevel.warning) none none]
      (some 207) (some [("traceId", JVal.str "t")]))
    rfl rfl rfl rfl
    (by simp [ResultT.toJSON, ResultT.toJSONFields, setKey, errorToJVal,
      levelToJVal, jnoUndef, jnoUndefList, jnoUndefFields])
  have h2 := spec_c1_verbose_roundtrip (ResultT.mk none [] none none)
    rfl rfl rfl rfl
    (by simp [ResultT.toJSON, ResultT.toJSONFields, jnoUndef, jnoUndefList,
      jnoUndefFields])
  ⟨h1.1, h1.2.1, h1.2.2.1, h1.2.2.2.1 rfl, h2.2.2.2.2 rfl⟩

/-- Counterexample for C1 as stated: a Result with a non-empty meta is not
restored by the round trip (toJSON flattens the traceId meta key into the
top level and fromJson reads the absent meta key as undefined); and even the
errors are not restored when a meta key collides with a built-in top-level
key, since flattening overwrites the encoded errors field. -/
theorem spec_c1_verbose_roundtrip_cex :
    (fromJson (.ok ((ResultT.mk none [] none
        (some [("traceId", JVal.str "t")])).toJSON false))).meta ≠
      metaToJVal (some [("traceId", JVal.str "t")]) ∧
    (fromJson (.ok ((ResultT.mk none [] none
        (some [("errors", JVal.str "zap")])).toJSON false))).errors ≠
      ([] : List ErrorDetail).map errorToJVal := by
  constructor
  · simp [fromJson, fromJsonTry, ResultT.toJSON, ResultT.toJSONFields,
      setKey, getKey, metaToJVal]
  · simp [fromJson, fromJsonTry, ResultT.toJSON, ResultT.toJSONFields,
      setKey, getKey, invalidJsonResult, errorToJVal]

/-- C6 (amended): decoding the compact encoding restores the errors content
(as verbose runtime error objects) for every Result whose error chains are
truthy-safe (non-empty codes and messages, no empty-string path) and whose
meta does not itself carry an errors key (flattening would overwrite the
encoded errors); the jnoUndef hypothesis again covers the JSON text layer.
Fields absent on the source ErrorDetail are omitted in the compact output
(no key at all), not null-filled. -/
theorem spec_c6_compact_roundtrip (R : ResultT)
    (hsafe : ∀ e ∈ R.errors, e.truthySafe = true)
    (hmeta : metaSafeKey R.meta "errors" = true)
    (hnu : jnoUndef (.arr (R.errors.map compactError)) = true) :
    (fromJson (.ok (R.toJSON true))).errors = R.errors.map errorToJVal ∧
    (∀ e : ErrorDetail, e.status = none →
      jsHasProp (compactError e) "s" = .ok false) ∧
    (∀ e : ErrorDetail, e.path = none →
      jsHasProp (compactError e) "p" = .ok false) ∧
    (∀ e : ErrorDetail, e.level = none →
      jsHasProp (compactError e) "l" = .ok false) ∧
    (∀ e : ErrorDetail, e.meta = none →
      jsHasProp (compactError e) "meta" = .ok false) ∧
    (∀ e : ErrorDetail, e.cause = none →
      jsHasProp (compactError e) "cause" = .ok false) := by
  refine ⟨?_, ?_, ?_, ?_, ?_, ?_⟩
  · have herr := toJSONFields_errors R true hmeta
    simp only [if_true] at herr
    cases hE : R.errors with
    | nil =>
      rw [hE] at herr
      simp only [List.map_nil] at herr
      simp [fromJson, fromJsonTry, ResultT.toJSON, herr]
    | cons e0 t =>
      rw [hE] at herr
      have hexp := expandList_compact R.errors hsafe
      rw [hE] at hexp
      simp only [List.map_cons] at herr hexp
      simp [fromJson, fromJsonTry, ResultT.toJSON, herr,
        (jsHasProp_compactError e0).1, (jsHasProp_compactError e0).2, hexp]
  · intro e he
    cases e with
    | mk code message status path level meta cause =>
      have h0 : status = none := he
      subst h0
      cases path with
      | none =>
        cases level <;> cases meta <;> cases cause <;>
          simp [compactError, jsHasProp, hasKey]
      | some p =>
        by_cases hp : p = "" <;> cases level <;> cases meta <;>
          cases cause <;> simp [compactError, jsHasProp, hasKey, hp]
  · intro e he
    cases e with
    | mk code message status path level meta cause =>
      have h0 : path = none := he
      subst h0
      cases status <;> cases level <;> cases meta <;> cases cause <;>
        simp [compactError, jsHasProp, hasKey]
  · intro e he
    cases e with
    | mk code message status path level meta cause =>
      have h0 : level = none := he
      subst h0
      cases status <;>
        · cases path with
          | none =>
            cases meta <;> cases cause <;>
              simp [compactError, jsHasProp, hasKey]
          | some p =>
            by_cases hp : p = "" <;> cases meta <;> cases cause <;>
              simp [compactError, jsHasProp, hasKey, hp]
  · intro e he
    cases e with
    | mk code message status path level meta cause =>
      have h0 : meta = none := he
      subst h0
      cases status <;>
        · cases path with
          | none =>
            cases level <;> cases cause <;>
              simp [compactError, jsHasProp, hasKey]
          | some p =>
            by_cases hp : p = "" <;> cases level <;> cases cause <;>
              simp [compactError, jsHasProp, hasKey, hp]
  · intro e he
    cases e with
    | mk code message status path level meta cause =>
      have h0 : cause = none := he
      subst h0
      cases status <;>
        · cases path with
          | none =>
            cases level <;> cases meta <;>
              simp [compactError, jsHasProp, hasKey]
          | some p =>
            by_cases hp : p = "" <;> cases level <;> cases meta <;>
              simp [compactError, jsHasProp, hasKey, hp]

/-- Witness for C6 on a Result whose single error carries status, path,
level, meta and a cause chain of depth 2 below it. -/
theorem spec_c6_compact_roundtrip_witness :
    (fromJson (.ok ((ResultT.mk none
        [.mk "A" "a" (some 500) (some "/p") (some ErrorLevel.error)
          (some [("k", JVal.str "v")])
          (some (.mk "B" "b" (some 400) none (some ErrorLevel.warning) none
            (some (.mk "C" "c" none none none none none))))]
        (some 500) none).toJSON true))).errors =
      [errorToJVal
        (.mk "A" "a" (some 500) (some "/p") (some ErrorLevel.error)
          (some [("k", JVal.str "v")])
          (some (.mk "B" "b" (some 400) none (some ErrorLevel.warning) none
            (some (.mk "C" "c" none none none none none)))))] :=
  (spec_c6_compact_roundtrip
    (ResultT.mk none
      [.mk "A" "a" (some 500) (some "/p") (some ErrorLevel.error)
        (some [("k", JVal.str "v")])
        (some (.mk "B" "b" (some 400) none (some ErrorLevel.warning) none
          (some (.mk "C" "c" none none none none none))))]
      (some 500) none)
    (by
      intro e he
      rw [List.mem_singleton] at he
      subst he
      simp [ErrorDetail.truthySafe])
    rfl
    (by simp [compactError, levelToJVal, jnoUndef, jnoUndefList,
      jnoUndefFields])).1

/-- Counterexample for C6 as stated: an error with an empty-string path is
not restored (the truthiness check of compactError drops the p key, so the
expanded error lacks the path); and a Result whose meta carries an errors
key has that key flattened over the encoded errors, so the decode does not
restore the errors at all. -/
theorem spec_c6_compact_roundtrip_cex :
    (fromJson (.ok ((ResultT.mk none
        [.mk "X" "x" none (some "") none none none]
        none none).toJSON true))).errors ≠
      [errorToJVal (.mk "X" "x" none (some "") none none none)] ∧
    (fromJson (.ok ((ResultT.mk none
        [.mk "A" "a" none none none none none]
        none (some [("errors", JVal.str "zap")])).toJSON true))).errors ≠
      [errorToJVal (.mk "A" "a" none none none none none)] := by
  constructor
  · simp [fromJson, fromJsonTry, ResultT.toJSON, ResultT.toJSONFields,
      compactError, errorToJVal, jsHasProp, hasKey, expandList,
      expandError.eq_def, getKey, jsOr, jsNullish, setKey, expandList]
  · simp [fromJson, fromJsonTry, ResultT.toJSON, ResultT.toJSONFields,
      compactError, errorToJVal, jsHasProp, hasKey, setKey, getKey,
      invalidJsonResult]
